import Mathlib

/-!
Verification of the interval-calibration and evaluation subsystem of the
solana-qrf-interval-forecasting repository, together with the 12-hour SQL
bucketing expression shared by the ingestion queries and the Stage-2
multicollinearity filter of the feature-pruning notebook.

Real-valued quantities are embedded as rationals so that every definition
is executable and every predicate decidable on concrete inputs.
-/

namespace SolanaQRF

/-! ## 4.1 Non-crossing rearrangement -/

/-- Modelled from the spec: ascending sort of the raw predicted values
(the repository keeps this logic in notebooks that are not part of the
source tree; §4.1 specifies the order-statistic rearrangement). -/
def sortAsc (xs : List ℚ) : List ℚ :=
  List.insertionSort (· ≤ ·) xs

/-- Modelled from the spec: §4.1 non-crossing rearrangement.  A prediction
is a mapping from quantile level to predicted value, listed in increasing
order of level.  If no inversion exists among the values (ties allowed)
the input is returned unchanged; otherwise the raw values are sorted
ascending and reassigned to the levels in ascending order. -/
def rearrange (p : List (ℚ × ℚ)) : List (ℚ × ℚ) :=
  if List.Pairwise (· ≤ ·) (p.map Prod.snd) then p
  else (p.map Prod.fst).zip (sortAsc (p.map Prod.snd))

/-- An example prediction over levels 1/20 and 1/2 whose values cross. -/
def crossedEx : List (ℚ × ℚ) := [(1/20, 5), (1/2, 3)]

/-! ## 4.2 Regime-aware residual calibrator (the parts the claims need) -/

/-- Modelled from the spec: k-th smallest element of a list of rationals
(k counted from 1); 0 when out of range. -/
def orderStat (xs : List ℚ) (k : ℕ) : ℚ :=
  (sortAsc xs).getD (k - 1) 0

/-- Modelled from the spec: §4.2 τ-th empirical quantile of a residual
sequence with uniform weights (the half-life-unset case of the
calibrator). -/
def empiricalQuantile (τ : ℚ) (xs : List ℚ) : ℚ :=
  orderStat xs (⌈τ * (xs.length : ℚ)⌉).toNat

/-- Modelled from the spec: §4.2 adds the per-level residual offset to
each rearranged value and re-applies the non-crossing rearrangement,
since per-level offsets can reintroduce crossings. -/
def applyOffsets (offset : ℚ → ℚ) (p : List (ℚ × ℚ)) : List (ℚ × ℚ) :=
  rearrange (p.map fun x => (x.1, x.2 + offset x.1))

/-! ## 4.3 Conformal top-up (split-conformal / CQR) -/

/-- Modelled from the spec: one calibration-slice point — the calibrated
lower/upper pair of the target band and the realized actual. -/
structure CalPoint where
  lower : ℚ
  upper : ℚ
  actual : ℚ
deriving DecidableEq

/-- Modelled from the spec: CQR conformity score
max(lower_pred − actual, actual − upper_pred). -/
def score (c : CalPoint) : ℚ :=
  max (c.lower - c.actual) (c.actual - c.upper)

/-- Ceiling of the integer fraction a / d, computed in integer
arithmetic so that it evaluates by kernel reduction. -/
def ceilDiv (a : ℤ) (d : ℕ) : ℤ :=
  -(-a / (d : ℤ))

/-- Modelled from the spec: the finite-sample-adjusted split-conformal
rank ⌈(n+1)(1−α)⌉, computed in integer arithmetic on the numerator and
denominator of α (see conformalIndexSpec for the ⌈⌉ form). -/
def conformalIndex (n : ℕ) (α : ℚ) : ℕ :=
  (ceilDiv (((n : ℤ) + 1) * ((α.den : ℤ) - α.num)) α.den).toNat

/-- Modelled from the spec: §7 error taxonomy (the two kinds the claims
mention). -/
inductive CalError where
  | configError
  | insufficientData
deriving DecidableEq

/-- Modelled from the spec: §4.3 conformal margin — fails with
ConfigurationError when the calibration slice is smaller than the
configured minimum; yields +∞ when the rank ⌈(n+1)(1−α)⌉ exceeds n;
otherwise the rank-th smallest conformity score. -/
def conformalMargin (minSize : ℕ) (α : ℚ) (calib : List CalPoint) :
    Except CalError (WithTop ℚ) :=
  if calib.length < minSize then .error .configError
  else if calib.length < conformalIndex calib.length α then .ok ⊤
  else .ok ((orderStat (calib.map score) (conformalIndex calib.length α) : ℚ) : WithTop ℚ)

/-- Modelled from the spec: symmetric widening of a band by a finite
margin: lower_final = lower − margin, upper_final = upper + margin. -/
def widen (m : ℚ) (b : ℚ × ℚ) : ℚ × ℚ :=
  (b.1 - m, b.2 + m)

/-- Modelled from the spec: §4.3 conformal top-up — one scalar margin per
(band, split), applied uniformly to every test-set band; an infinite
margin widens every band to (−∞, +∞). -/
def conformalTopUp (minSize : ℕ) (α : ℚ) (calib : List CalPoint)
    (test : List (ℚ × ℚ)) : Except CalError (List (WithBot ℚ × WithTop ℚ)) :=
  match conformalMargin minSize α calib with
  | .error e => .error e
  | .ok mt =>
      .ok (test.map fun b =>
        match mt with
        | ⊤ => ((⊥ : WithBot ℚ), (⊤ : WithTop ℚ))
        | (m : ℚ) => (((widen m b).1 : WithBot ℚ), ((widen m b).2 : WithTop ℚ)))

/-- A widened band does not cross: whenever both bounds are finite the
lower bound is at most the upper bound. -/
def bandOK (b : WithBot ℚ × WithTop ℚ) : Prop :=
  ∀ l u : ℚ, b.1 = (l : WithBot ℚ) → b.2 = (u : WithTop ℚ) → l ≤ u

/-- A calibration slice of 20 points whose bands vastly over-cover, so
every conformity score is −50. -/
def calibEx : List CalPoint :=
  List.replicate 20 ⟨0, 100, 50⟩

/-! ## 4.4 Rolling-origin evaluation harness -/

/-- Modelled from the spec: §4.4 window-length and step configuration. -/
structure SplitCfg where
  trainLen : ℕ
  calLen : ℕ
  testLen : ℕ
  step : ℕ
deriving DecidableEq

/-- Total span of one split. -/
def SplitCfg.total (cfg : SplitCfg) : ℕ :=
  cfg.trainLen + cfg.calLen + cfg.testLen

/-- Modelled from the spec: a CalibrationSplit — three half-open,
time-contiguous index ranges (train, calibration, test). -/
structure Split where
  trainLo : ℕ
  trainHi : ℕ
  calLo : ℕ
  calHi : ℕ
  testLo : ℕ
  testHi : ℕ
deriving DecidableEq

/-- Modelled from the spec: the split whose train window starts at
origin o. -/
def mkSplit (cfg : SplitCfg) (o : ℕ) : Split where
  trainLo := o
  trainHi := o + cfg.trainLen
  calLo := o + cfg.trainLen
  calHi := o + cfg.trainLen + cfg.calLen
  testLo := o + cfg.trainLen + cfg.calLen
  testHi := o + cfg.trainLen + cfg.calLen + cfg.testLen

/-- Number of rolling splits fitting in the data horizon. -/
def numSplits (cfg : SplitCfg) (horizon : ℕ) : ℕ :=
  (horizon - cfg.total) / cfg.step + 1

/-- Modelled from the spec: §4.4 rolling-origin harness — advance the
origin by step from 0, terminating when the next test window would
exceed the data horizon; windows that cannot fit at all (or degenerate
window parameters) are a ConfigurationError, never an empty run. -/
def rollingSplits (cfg : SplitCfg) (horizon : ℕ) : Except CalError (List Split) :=
  if cfg.step = 0 ∨ cfg.trainLen = 0 ∨ cfg.calLen = 0 ∨ cfg.testLen = 0
      ∨ horizon < cfg.total then
    .error .configError
  else
    .ok ((List.range (numSplits cfg horizon)).map fun i => mkSplit cfg (i * cfg.step))

/-- Membership of a timestamp in the train range of a split. -/
def inTrain (s : Split) (t : ℕ) : Prop := s.trainLo ≤ t ∧ t < s.trainHi

/-- Membership of a timestamp in the calibration range of a split. -/
def inCal (s : Split) (t : ℕ) : Prop := s.calLo ≤ t ∧ t < s.calHi

/-- Membership of a timestamp in the test range of a split. -/
def inTest (s : Split) (t : ℕ) : Prop := s.testLo ≤ t ∧ t < s.testHi

/-- Modelled from the spec: ResidualHistory — the signed residuals
actual − raw_predicted observed at the timestamps of the train window
only. -/
def residualHistory (actual pred : ℕ → ℚ) (s : Split) : List ℚ :=
  (List.range (s.trainHi - s.trainLo)).map fun j =>
    actual (s.trainLo + j) - pred (s.trainLo + j)

/-- Modelled from the spec: the per-level calibration offset — the τ-th
empirical quantile of the split's residual history. -/
def calibOffset (τ : ℚ) (actual pred : ℕ → ℚ) (s : Split) : ℚ :=
  empiricalQuantile τ (residualHistory actual pred s)

/-- The three ranges of a split are time-contiguous, non-empty, pairwise
disjoint and strictly temporally ordered. -/
def splitWellFormed (s : Split) : Prop :=
  s.trainHi = s.calLo ∧ s.calHi = s.testLo
  ∧ s.trainLo < s.trainHi ∧ s.calLo < s.calHi ∧ s.testLo < s.testHi
  ∧ (∀ t u, inTrain s t → inCal s u → t < u)
  ∧ (∀ t u, inCal s t → inTest s u → t < u)
  ∧ (∀ t, ¬ (inTrain s t ∧ inCal s t))
  ∧ (∀ t, ¬ (inCal s t ∧ inTest s t))
  ∧ (∀ t, ¬ (inTrain s t ∧ inTest s t))

/-- No observation outside the train range influences any calibration
offset of the split: the offsets only depend on the restriction of the
data to the train range. -/
def splitNonLeaky (s : Split) : Prop :=
  ∀ (τ : ℚ) (actual pred actual2 pred2 : ℕ → ℚ),
    (∀ t, inTrain s t → actual t = actual2 t) →
    (∀ t, inTrain s t → pred t = pred2 t) →
    calibOffset τ actual pred s = calibOffset τ actual2 pred2 s

/-! ## 4.5 Scoring and significance engine (Diebold–Mariano) -/

/-- Arithmetic mean of a list of rationals (0 for the empty list). -/
def meanQ (xs : List ℚ) : ℚ :=
  xs.sum / (xs.length : ℚ)

/-- Modelled from the spec: lag-ℓ empirical autocovariance of a series
around its mean, normalized by the series length. -/
def autocov (d : List ℚ) (lag : ℕ) : ℚ :=
  ((List.range (d.length - lag)).map fun t =>
    (d.getD t 0 - meanQ d) * (d.getD (t + lag) 0 - meanQ d)).sum / (d.length : ℚ)

/-- Modelled from the spec: Newey–West (Bartlett-weighted) HAC variance
of the loss-differential series with configurable lag length L. -/
def hacVariance (L : ℕ) (d : List ℚ) : ℚ :=
  autocov d 0
    + 2 * ((List.range L).map fun l =>
        (1 - ((l + 1 : ℕ) : ℚ) / ((L : ℚ) + 1)) * autocov d (l + 1)).sum

/-- Modelled from the spec: per-timestamp loss differential of two
models' loss series. -/
def lossDiff (a b : List ℚ) : List ℚ :=
  List.zipWith (· - ·) a b

/-- Modelled from the spec: the Diebold–Mariano test statistic — mean
loss differential standardized by the HAC standard error, the square
root being supplied as an abstract routine sqrtFn applied to the HAC
variance of the mean. -/
def dmStat (sqrtFn : ℚ → ℚ) (L : ℕ) (a b : List ℚ) : ℚ :=
  meanQ (lossDiff a b)
    / sqrtFn (hacVariance L (lossDiff a b) / ((lossDiff a b).length : ℚ))

/-! ## 12-hour bucketing of the ingestion SQL queries -/

/-- Hour-of-day of a timestamp counted in seconds (the SQL
EXTRACT(HOUR FROM block_timestamp)). -/
def hourOfDay (t : ℤ) : ℤ :=
  t % 86400 / 3600

/-- Midnight of the timestamp's calendar day (the SQL
TIMESTAMP_TRUNC(block_timestamp, DAY)). -/
def truncDay (t : ℤ) : ℤ :=
  t - t % 86400

/-- The bucket_start expression shared by the ingestion queries:
midnight when the hour is below 12, midnight plus 12 hours otherwise. -/
def bucketStart (t : ℤ) : ℤ :=
  if hourOfDay t < 12 then truncDay t else truncDay t + 43200

/-! ## Stage-2 multicollinearity filter of the feature-pruning notebook -/

/-- The upper triangle of the column-pair matrix in column order
(itertools.combinations(corr.columns, 2)). -/
def upperPairs {α : Type} : List α → List (α × α)
  | [] => []
  | x :: xs => (xs.map fun y => (x, y)) ++ upperPairs xs

/-- The columns marked for dropping: the second (later) column of every
pair whose absolute correlation exceeds 0.98 (written mkRat 49 50). -/
def toDrop {α : Type} (corr : α → α → ℚ) (cols : List α) : List α :=
  (upperPairs cols).filterMap fun q =>
    if mkRat 49 50 < corr q.1 q.2 then some q.2 else none

/-- The numeric columns surviving the Stage-2 filter, in original
order. -/
def numAfter {α : Type} [DecidableEq α] (corr : α → α → ℚ) (cols : List α) : List α :=
  cols.filter fun c => decide (c ∉ toDrop corr cols)

/-- The Stage-2 predictor list: surviving numerics followed by the
(exempt) categoricals, as in the notebook. -/
def predictorsStage2 {α : Type} [DecidableEq α] (corr : α → α → ℚ)
    (numKeep catKeep : List α) : List α :=
  numAfter corr numKeep ++ catKeep

theorem length_sortAsc (xs : List ℚ) : (sortAsc xs).length = xs.length := by
  unfold sortAsc
  exact List.length_insertionSort (fun a b : ℚ => a ≤ b) xs

theorem sortAsc_sorted (xs : List ℚ) : List.Pairwise (· ≤ ·) (sortAsc xs) :=
  List.sorted_insertionSort (· ≤ ·) xs

theorem sortAsc_of_sorted {xs : List ℚ} (h : List.Pairwise (· ≤ ·) xs) :
    sortAsc xs = xs :=
  List.Sorted.insertionSort_eq h

/-- The rearrangement never changes the key (level) list. -/
theorem rearrange_fst (p : List (ℚ × ℚ)) :
    (rearrange p).map Prod.fst = p.map Prod.fst := by
  unfold rearrange
  split
  · rfl
  · exact List.map_fst_zip _ _ (by simp [length_sortAsc])

/-- The value sequence of a rearranged prediction is non-decreasing. -/
theorem rearrange_sorted (p : List (ℚ × ℚ)) :
    List.Pairwise (· ≤ ·) ((rearrange p).map Prod.snd) := by
  unfold rearrange
  split
  · assumption
  · rw [List.map_snd_zip _ _ (by simp [length_sortAsc])]
    exact sortAsc_sorted _

theorem rearrange_snd_of_not_sorted {p : List (ℚ × ℚ)}
    (h : ¬ List.Pairwise (· ≤ ·) (p.map Prod.snd)) :
    (rearrange p).map Prod.snd = sortAsc (p.map Prod.snd) := by
  unfold rearrange
  rw [if_neg h]
  exact List.map_snd_zip _ _ (by simp [length_sortAsc])

theorem rearrange_of_sorted {p : List (ℚ × ℚ)}
    (h : List.Pairwise (· ≤ ·) (p.map Prod.snd)) :
    rearrange p = p := by
  unfold rearrange
  exact if_pos h

end SolanaQRF

namespace SolanaQRF

theorem ceilDiv_eq (a : ℤ) (d : ℕ) : ceilDiv a d = ⌈(a : ℚ) / (d : ℚ)⌉ := by
  rw [ceilDiv, ← Rat.floor_intCast_div_natCast (-a) d, ← Int.ceil_neg]
  congr 1
  push_cast
  ring

/-- The integer-arithmetic conformal rank agrees with the spec formula
⌈(n+1)(1−α)⌉. -/
theorem conformalIndexSpec (n : ℕ) (α : ℚ) :
    conformalIndex n α = (⌈((n : ℚ) + 1) * (1 - α)⌉).toNat := by
  rw [conformalIndex, ceilDiv_eq]
  congr 2
  have hd : ((α.den : ℚ)) ≠ 0 := by
    exact_mod_cast α.den_nz
  rw [div_eq_iff hd]
  have hnum : (α.num : ℚ) = α * (α.den : ℚ) :=
    (div_eq_iff hd).mp (Rat.num_div_den α)
  push_cast
  rw [hnum]
  ring

/-- C3: the rearrangement keeps exactly the input key list; its value
sequence read in increasing order of level is non-decreasing; when an
inversion exists the output values are the ascending sort of the raw
values; when no inversion exists (ties allowed) the input is returned
unchanged. -/
theorem C3_rearrange_contract (p : List (ℚ × ℚ)) :
    (rearrange p).map Prod.fst = p.map Prod.fst
    ∧ List.Pairwise (· ≤ ·) ((rearrange p).map Prod.snd)
    ∧ (¬ List.Pairwise (· ≤ ·) (p.map Prod.snd) →
        (rearrange p).map Prod.snd = sortAsc (p.map Prod.snd))
    ∧ (List.Pairwise (· ≤ ·) (p.map Prod.snd) → rearrange p = p) :=
  ⟨rearrange_fst p, rearrange_sorted p,
    fun h => rearrange_snd_of_not_sorted h,
    fun h => rearrange_of_sorted h⟩

/-- Witness for C3 at a concrete crossed input. -/
theorem C3_rearrange_contract_witness :
    (rearrange crossedEx).map Prod.fst = crossedEx.map Prod.fst
    ∧ (rearrange crossedEx).map Prod.snd = sortAsc (crossedEx.map Prod.snd) :=
  ⟨(C3_rearrange_contract crossedEx).1,
    (C3_rearrange_contract crossedEx).2.2.1 (by decide)⟩

/-- C4: the rearrangement is idempotent, and on an already non-decreasing
value sequence it is the identity. -/
theorem C4_rearrange_idempotent (p : List (ℚ × ℚ)) :
    rearrange (rearrange p) = rearrange p
    ∧ (List.Pairwise (· ≤ ·) (p.map Prod.snd) → rearrange p = p) :=
  ⟨rearrange_of_sorted (rearrange_sorted p),
    fun h => rearrange_of_sorted h⟩

/-- C1 (amended): the calibrated value sequence is non-crossing after
rearrangement and after the regime residual offsets are added with
rearrangement re-applied; after conformal widening the band stays
non-crossing provided the margin m satisfies −(upper−lower) ≤ 2m, in
particular for every nonnegative margin — but not for arbitrarily
negative margins (see the counterexample). -/
theorem C1_noncrossing_stages (p : List (ℚ × ℚ)) (offset : ℚ → ℚ) (m l u : ℚ) :
    List.Pairwise (· ≤ ·) ((rearrange p).map Prod.snd)
    ∧ List.Pairwise (· ≤ ·) ((applyOffsets offset (rearrange p)).map Prod.snd)
    ∧ (l ≤ u → -(u - l) ≤ 2 * m → (widen m (l, u)).1 ≤ (widen m (l, u)).2) := by
  refine ⟨rearrange_sorted p, rearrange_sorted _, ?_⟩
  intro h1 h2
  simp only [widen]
  linarith

/-- Witness for C1 at a concrete prediction, offset and margin. -/
theorem C1_noncrossing_stages_witness :
    List.Pairwise (· ≤ ·) ((rearrange [(mkRat 1 4, 2), (mkRat 1 2, 1)]).map Prod.snd)
    ∧ List.Pairwise (· ≤ ·)
        ((applyOffsets (fun x => x) (rearrange [(mkRat 1 4, 2), (mkRat 1 2, 1)])).map Prod.snd)
    ∧ (widen 0 ((0 : ℚ), (0 : ℚ))).1 ≤ (widen 0 ((0 : ℚ), (0 : ℚ))).2 := by
  obtain ⟨a, b, c⟩ := C1_noncrossing_stages [(mkRat 1 4, 2), (mkRat 1 2, 1)] (fun x => x) 0 0 0
  exact ⟨a, b, c (by decide) (by simp)⟩

/-- C1 counterexample: a concrete run of the specified pipeline — a
non-crossing band (0, 1), zero offsets, and a calibration slice whose
conformity scores are all −50 — for which the conformal stage produces
the crossed band (50, −49). -/
theorem C1_noncrossing_counterexample :
    rearrange [(mkRat 1 20, 0), (mkRat 19 20, 1)] = [(mkRat 1 20, 0), (mkRat 19 20, 1)]
    ∧ applyOffsets (fun _ => 0) [(mkRat 1 20, 0), (mkRat 19 20, 1)]
        = [(mkRat 1 20, (0 : ℚ)), (mkRat 19 20, 1)]
    ∧ conformalTopUp 20 (mkRat 1 10) calibEx [((0 : ℚ), (1 : ℚ))]
        = .ok [(((50 : ℚ) : WithBot ℚ), ((-49 : ℚ) : WithTop ℚ))]
    ∧ ¬ bandOK (((50 : ℚ) : WithBot ℚ), ((-49 : ℚ) : WithTop ℚ)) := by
  have hscores : calibEx.map score = List.replicate 20 (-50 : ℚ) := by
    rw [calibEx, List.map_replicate]
    norm_num [score]
  have hmargin : conformalMargin 20 (mkRat 1 10) calibEx
      = .ok (((-50 : ℚ)) : WithTop ℚ) := by
    rw [conformalMargin, if_neg (by decide), if_neg (by decide)]
    rw [hscores]
    rw [orderStat, sortAsc_of_sorted (by decide :
      List.Pairwise (· ≤ ·) (List.replicate 20 (-50 : ℚ)))]
    congr 1
  refine ⟨?_, ?_, ?_, ?_⟩
  · exact rearrange_of_sorted (by decide)
  · have hmap : ([(mkRat 1 20, (0 : ℚ)), (mkRat 19 20, 1)].map
        fun x => (x.1, x.2 + (fun _ => (0 : ℚ)) x.1))
        = [(mkRat 1 20, (0 : ℚ)), (mkRat 19 20, 1)] := by
      norm_num
    rw [applyOffsets, hmap]
    exact rearrange_of_sorted (by decide)
  · rw [conformalTopUp, hmargin]
    have hw : widen (-50) ((0 : ℚ), (1 : ℚ)) = (50, -49) := by
      norm_num [widen]
    simp [hw]
  · intro h
    have h50 := h 50 (-49) rfl rfl
    norm_num at h50

/-- C2: on a calibration slice at least as large as the configured
minimum and whose finite-sample rank ⌈(n+1)(1−α)⌉ is within range, the
conformal top-up computes the conformity scores
max(lower_pred − actual, actual − upper_pred), takes the rank-th
smallest score as a single scalar margin for the (band, split), and
widens every test band uniformly to
(lower_pred − margin, upper_pred + margin). -/
theorem C2_conformal_contract (minSize : ℕ) (α : ℚ)
    (calib : List CalPoint) (test : List (ℚ × ℚ))
    (hmin : minSize ≤ calib.length)
    (hk : conformalIndex calib.length α ≤ calib.length) :
    ∃ m : ℚ,
      conformalMargin minSize α calib = .ok ((m : ℚ) : WithTop ℚ)
      ∧ m = orderStat (calib.map score) (conformalIndex calib.length α)
      ∧ conformalIndex calib.length α
          = (⌈((calib.length : ℚ) + 1) * (1 - α)⌉).toNat
      ∧ calib.map score
          = calib.map (fun c => max (c.lower - c.actual) (c.actual - c.upper))
      ∧ conformalTopUp minSize α calib test
          = .ok (test.map fun b =>
              (((b.1 - m : ℚ) : WithBot ℚ), ((b.2 + m : ℚ) : WithTop ℚ))) := by
  have hm : conformalMargin minSize α calib
      = .ok ((orderStat (calib.map score) (conformalIndex calib.length α) : ℚ) : WithTop ℚ) := by
    rw [conformalMargin, if_neg (by omega), if_neg (by omega)]
  refine ⟨orderStat (calib.map score) (conformalIndex calib.length α),
    hm, rfl, conformalIndexSpec _ _, rfl, ?_⟩
  rw [conformalTopUp, hm]
  rfl

/-- Witness for C2 at a concrete slice of size 2 with α = 1/2. -/
theorem C2_conformal_contract_witness :
    ∃ m : ℚ,
      conformalMargin 2 (mkRat 1 2) [⟨0, 1, 0⟩, ⟨0, 1, 1⟩] = .ok ((m : ℚ) : WithTop ℚ)
      ∧ m = orderStat (([⟨0, 1, 0⟩, ⟨0, 1, 1⟩] : List CalPoint).map score)
              (conformalIndex ([⟨0, 1, 0⟩, ⟨0, 1, 1⟩] : List CalPoint).length (mkRat 1 2))
      ∧ conformalIndex ([⟨0, 1, 0⟩, ⟨0, 1, 1⟩] : List CalPoint).length (mkRat 1 2)
          = (⌈((([⟨0, 1, 0⟩, ⟨0, 1, 1⟩] : List CalPoint).length : ℚ) + 1)
              * (1 - mkRat 1 2)⌉).toNat
      ∧ ([⟨0, 1, 0⟩, ⟨0, 1, 1⟩] : List CalPoint).map score
          = ([⟨0, 1, 0⟩, ⟨0, 1, 1⟩] : List CalPoint).map
              (fun c => max (c.lower - c.actual) (c.actual - c.upper))
      ∧ conformalTopUp 2 (mkRat 1 2) [⟨0, 1, 0⟩, ⟨0, 1, 1⟩] [((0 : ℚ), (3 : ℚ))]
          = .ok ([((0 : ℚ), (3 : ℚ))].map fun b =>
              (((b.1 - m : ℚ) : WithBot ℚ), ((b.2 + m : ℚ) : WithTop ℚ))) :=
  C2_conformal_contract 2 (mkRat 1 2) [⟨0, 1, 0⟩, ⟨0, 1, 1⟩] [((0 : ℚ), (3 : ℚ))]
    (by decide) (by decide)

/-- C6: the conformal margin raises ConfigurationError whenever the
calibration slice is below the configured minimum — in particular a
slice of size 5 with the 90% band and minimum 20 — and whenever the rank
⌈(n+1)(1−α)⌉ exceeds n the margin is +∞ for the band, not clipped; the
rank at n = 5, α = 1/10 is ⌈6 × 9/10⌉ = 6 > 5. -/
theorem C6_conformal_degenerate (minSize : ℕ) (α : ℚ) (calib : List CalPoint) :
    (calib.length < minSize → conformalMargin minSize α calib = .error .configError)
    ∧ (minSize ≤ calib.length → calib.length < conformalIndex calib.length α →
        conformalMargin minSize α calib = .ok ⊤)
    ∧ conformalIndex 5 (mkRat 1 10) = 6
    ∧ conformalMargin 20 (mkRat 1 10) (List.replicate 5 ⟨0, 1, 0⟩)
        = .error .configError := by
  refine ⟨?_, ?_, by decide, rfl⟩
  · intro h
    rw [conformalMargin, if_pos h]
  · intro h1 h2
    rw [conformalMargin, if_neg (by omega), if_pos h2]

/-- Witness for C6: the degenerate slice of size 5 errors, and a slice
of size 20 with α = 1/100 (rank 21 > 20) has margin +∞. -/
theorem C6_conformal_degenerate_witness :
    conformalMargin 20 (mkRat 1 10) (List.replicate 5 ⟨0, 1, 0⟩) = .error .configError
    ∧ conformalMargin 20 (mkRat 1 100) (List.replicate 20 ⟨0, 1, 0⟩) = .ok ⊤ :=
  ⟨(C6_conformal_degenerate 20 (mkRat 1 10) (List.replicate 5 ⟨0, 1, 0⟩)).1 (by decide),
   (C6_conformal_degenerate 20 (mkRat 1 100) (List.replicate 20 ⟨0, 1, 0⟩)).2.1
     (by decide) (by decide)⟩

/-- Witness for C4 at a concrete already-sorted input. -/
theorem C4_rearrange_idempotent_witness :
    rearrange (rearrange [((1:ℚ)/4, 1), (1/2, 2)]) = rearrange [((1:ℚ)/4, 1), (1/2, 2)]
    ∧ rearrange [((1:ℚ)/4, 1), (1/2, 2)] = [((1:ℚ)/4, 1), (1/2, 2)] :=
  ⟨(C4_rearrange_idempotent [((1:ℚ)/4, 1), (1/2, 2)]).1,
    (C4_rearrange_idempotent [((1:ℚ)/4, 1), (1/2, 2)]).2 (by decide)⟩

end SolanaQRF

namespace SolanaQRF

theorem residualHistory_congr (s : Split) (actual pred actual2 pred2 : ℕ → ℚ)
    (ha : ∀ t, inTrain s t → actual t = actual2 t)
    (hp : ∀ t, inTrain s t → pred t = pred2 t) :
    residualHistory actual pred s = residualHistory actual2 pred2 s := by
  unfold residualHistory
  apply List.map_congr_left
  intro j hj
  rw [List.mem_range] at hj
  have ht : inTrain s (s.trainLo + j) := by
    unfold inTrain
    omega
  rw [ha _ ht, hp _ ht]

theorem mkSplit_wellFormed (cfg : SplitCfg) (o : ℕ)
    (htr : 0 < cfg.trainLen) (hc : 0 < cfg.calLen) (hte : 0 < cfg.testLen) :
    splitWellFormed (mkSplit cfg o) := by
  unfold splitWellFormed inTrain inCal inTest
  simp only [mkSplit]
  refine ⟨trivial, trivial, by omega, by omega, by omega, ?_, ?_, ?_, ?_, ?_⟩ <;>
    intros <;> omega

theorem split_nonLeaky (s : Split) : splitNonLeaky s := by
  intro τ actual pred actual2 pred2 ha hp
  unfold calibOffset
  rw [residualHistory_congr s actual pred actual2 pred2 ha hp]

/-- C5: every split produced by the rolling-origin harness has
time-contiguous, non-empty, pairwise disjoint and strictly temporally
ordered train/calibration/test ranges, and the calibration offsets of a
split depend only on the observations in its train range — changing any
calibration-range or test-range observation leaves every offset
unchanged. -/
theorem C5_split_ranges_nonleaky (cfg : SplitCfg) (horizon : ℕ)
    (ss : List Split) (s : Split)
    (hok : rollingSplits cfg horizon = .ok ss) (hs : s ∈ ss) :
    splitWellFormed s ∧ splitNonLeaky s := by
  rw [rollingSplits] at hok
  split at hok
  · exact absurd hok (by simp)
  · rename_i hguard
    push_neg at hguard
    obtain ⟨hstep, htr, hc, hte, hfit⟩ := hguard
    rw [Except.ok.injEq] at hok
    subst hok
    rw [List.mem_map] at hs
    obtain ⟨i, _, hi⟩ := hs
    subst hi
    exact ⟨mkSplit_wellFormed cfg _ (by omega) (by omega) (by omega),
      split_nonLeaky _⟩

/-- Witness for C5 at the first split of a concrete harness run. -/
theorem C5_split_ranges_nonleaky_witness :
    splitWellFormed (mkSplit ⟨3, 2, 1, 1⟩ 0) ∧ splitNonLeaky (mkSplit ⟨3, 2, 1, 1⟩ 0) :=
  C5_split_ranges_nonleaky ⟨3, 2, 1, 1⟩ 10
    ((List.range (numSplits ⟨3, 2, 1, 1⟩ 10)).map fun i => mkSplit ⟨3, 2, 1, 1⟩ (i * 1))
    (mkSplit ⟨3, 2, 1, 1⟩ 0) rfl (by decide)

end SolanaQRF

namespace SolanaQRF

/-- C7: for positive window lengths and a positive step, the harness is
a pure function of the window lengths and the data extent — windows that
cannot fit are a ConfigurationError rather than an empty or truncated run;
otherwise it generates the splits at origins 0, step, 2·step, …, one per
index below numSplits with no skipped or dropped split (index i is
generated exactly when its test window fits), the final split still fits
the horizon, and the next origin after the last would exceed it. -/
theorem C7_rolling_origin (cfg : SplitCfg) (horizon : ℕ)
    (hstep : 0 < cfg.step) (htr : 0 < cfg.trainLen)
    (hc : 0 < cfg.calLen) (hte : 0 < cfg.testLen) :
    (horizon < cfg.total → rollingSplits cfg horizon = .error .configError)
    ∧ (cfg.total ≤ horizon → ∃ ss : List Split,
        rollingSplits cfg horizon = .ok ss
        ∧ ss.length = numSplits cfg horizon
        ∧ 0 < ss.length
        ∧ (∀ i : ℕ, ∀ h : i < ss.length, ss.get ⟨i, h⟩ = mkSplit cfg (i * cfg.step))
        ∧ (∀ i : ℕ, ∀ h : i < ss.length, (ss.get ⟨i, h⟩).testHi = i * cfg.step + cfg.total)
        ∧ (∀ i : ℕ, i < ss.length ↔ i * cfg.step + cfg.total ≤ horizon)
        ∧ horizon < ss.length * cfg.step + cfg.total) := by
  constructor
  · intro hlt
    rw [rollingSplits, if_pos (by tauto)]
  · intro hfit
    have hguard : ¬ (cfg.step = 0 ∨ cfg.trainLen = 0 ∨ cfg.calLen = 0 ∨ cfg.testLen = 0
        ∨ horizon < cfg.total) := by
      push_neg
      exact ⟨by omega, by omega, by omega, by omega, hfit⟩
    refine ⟨(List.range (numSplits cfg horizon)).map fun i => mkSplit cfg (i * cfg.step),
      by rw [rollingSplits, if_neg hguard], by simp, by simp [numSplits], ?_, ?_, ?_, ?_⟩
    · intro i h
      simp
    · intro i h
      simp [mkSplit, SplitCfg.total]
      omega
    · intro i
      simp only [List.length_map, List.length_range, numSplits]
      have h2 : i ≤ (horizon - cfg.total) / cfg.step ↔ i * cfg.step ≤ horizon - cfg.total :=
        Nat.le_div_iff_mul_le hstep
      omega
    · simp only [List.length_map, List.length_range, numSplits]
      have hdm := Nat.div_add_mod (horizon - cfg.total) cfg.step
      have hmod : (horizon - cfg.total) % cfg.step < cfg.step :=
        Nat.mod_lt _ hstep
      have hmul : ((horizon - cfg.total) / cfg.step + 1) * cfg.step
          = cfg.step * ((horizon - cfg.total) / cfg.step) + cfg.step := by
        ring
      omega

end SolanaQRF

namespace SolanaQRF

/-- Witness for C7: with windows 3/2/1, step 1, an unfittable horizon of
5 errors and a horizon of 10 yields exactly the five advancing splits. -/
theorem C7_rolling_origin_witness :
    rollingSplits ⟨3, 2, 1, 1⟩ 5 = .error .configError
    ∧ (∃ ss : List Split,
        rollingSplits ⟨3, 2, 1, 1⟩ 10 = .ok ss
        ∧ ss.length = numSplits ⟨3, 2, 1, 1⟩ 10
        ∧ 0 < ss.length
        ∧ (∀ i : ℕ, ∀ h : i < ss.length, ss.get ⟨i, h⟩ = mkSplit ⟨3, 2, 1, 1⟩ (i * 1))
        ∧ (∀ i : ℕ, ∀ h : i < ss.length,
            (ss.get ⟨i, h⟩).testHi = i * 1 + SplitCfg.total ⟨3, 2, 1, 1⟩)
        ∧ (∀ i : ℕ, i < ss.length ↔ i * 1 + SplitCfg.total ⟨3, 2, 1, 1⟩ ≤ 10)
        ∧ 10 < ss.length * 1 + SplitCfg.total ⟨3, 2, 1, 1⟩) :=
  ⟨(C7_rolling_origin ⟨3, 2, 1, 1⟩ 5 (by decide) (by decide) (by decide) (by decide)).1
      (by decide),
   (C7_rolling_origin ⟨3, 2, 1, 1⟩ 10 (by decide) (by decide) (by decide) (by decide)).2
      (by decide)⟩

theorem lossDiff_swap : ∀ a b : List ℚ, lossDiff b a = (lossDiff a b).map (fun x => -x)
  | [], [] => rfl
  | [], _ :: _ => rfl
  | _ :: _, [] => rfl
  | x :: xs, y :: ys => by
    simp only [lossDiff, List.zipWith_cons_cons, List.map_cons, neg_sub]
    exact congrArg (List.cons (y - x)) (lossDiff_swap xs ys)

theorem sum_map_neg : ∀ xs : List ℚ, (xs.map fun x => -x).sum = -xs.sum
  | [] => by simp
  | x :: xs => by
    simp [sum_map_neg xs]
    ring

theorem meanQ_neg (xs : List ℚ) : meanQ (xs.map fun x => -x) = -meanQ xs := by
  rw [meanQ, meanQ, sum_map_neg, List.length_map, neg_div]

theorem getD_map_neg : ∀ (xs : List ℚ) (t : ℕ), (xs.map fun x => -x).getD t 0 = -xs.getD t 0
  | [], _ => by simp
  | x :: xs, 0 => rfl
  | x :: xs, t + 1 => getD_map_neg xs t

theorem autocov_neg (xs : List ℚ) (lag : ℕ) :
    autocov (xs.map fun x => -x) lag = autocov xs lag := by
  unfold autocov
  rw [List.length_map, meanQ_neg]
  congr 1
  refine congrArg List.sum (List.map_congr_left ?_)
  intro t _
  rw [getD_map_neg, getD_map_neg]
  ring

theorem hacVariance_neg (L : ℕ) (xs : List ℚ) :
    hacVariance L (xs.map fun x => -x) = hacVariance L xs := by
  unfold hacVariance
  rw [autocov_neg]
  congr 2
  refine congrArg List.sum (List.map_congr_left ?_)
  intro l _
  rw [autocov_neg]

/-- C8: the Diebold–Mariano statistic is antisymmetric in its two
loss-series arguments — for equal-length series over the same index,
swapping the series negates the statistic and preserves its absolute
value, for any square-root routine and any HAC lag length. -/
theorem C8_dm_antisymmetry (sqrtFn : ℚ → ℚ) (L : ℕ) (a b : List ℚ)
    (hlen : a.length = b.length) :
    dmStat sqrtFn L b a = - dmStat sqrtFn L a b
    ∧ |dmStat sqrtFn L b a| = |dmStat sqrtFn L a b| := by
  have h1 : dmStat sqrtFn L b a = - dmStat sqrtFn L a b := by
    unfold dmStat
    rw [lossDiff_swap a b, meanQ_neg, hacVariance_neg, List.length_map, neg_div]
  exact ⟨h1, by rw [h1, abs_neg]⟩

/-- Witness for C8 on two concrete equal-length loss series. -/
theorem C8_dm_antisymmetry_witness :
    dmStat (fun x => x) 1 [(1 : ℚ), 3] [(0 : ℚ), 2]
        = - dmStat (fun x => x) 1 [(0 : ℚ), 2] [(1 : ℚ), 3]
    ∧ |dmStat (fun x => x) 1 [(1 : ℚ), 3] [(0 : ℚ), 2]|
        = |dmStat (fun x => x) 1 [(0 : ℚ), 2] [(1 : ℚ), 3]| :=
  C8_dm_antisymmetry (fun x => x) 1 [(0 : ℚ), 2] [(1 : ℚ), 3] rfl

end SolanaQRF

namespace SolanaQRF

/-- C9: the shared 12-hour bucketing expression assigns midnight of the
timestamp's day when the hour is below 12 and midnight plus 12 hours
otherwise; every bucket start is aligned to a 12-hour boundary, contains
its timestamp (bucket_start ≤ t < bucket_start + 12h), starts at hour 0
or 12, and is the unique aligned 12-hour bin containing the timestamp,
so the buckets partition the time axis. -/
theorem C9_bucket_partition (t : ℤ) :
    (hourOfDay t < 12 → bucketStart t = truncDay t)
    ∧ (12 ≤ hourOfDay t → bucketStart t = truncDay t + 43200)
    ∧ bucketStart t % 43200 = 0
    ∧ bucketStart t ≤ t
    ∧ t < bucketStart t + 43200
    ∧ (hourOfDay (bucketStart t) = 0 ∨ hourOfDay (bucketStart t) = 12)
    ∧ (∀ b : ℤ, b % 43200 = 0 → (b ≤ t ∧ t < b + 43200 ↔ b = bucketStart t)) := by
  by_cases h : hourOfDay t < 12
  · have hb : bucketStart t = truncDay t := by
      rw [bucketStart, if_pos h]
    rw [hourOfDay] at h
    rw [hb]
    unfold hourOfDay truncDay
    refine ⟨fun _ => rfl, fun hh => by omega, by omega, by omega, by omega, ?_, ?_⟩
    · left
      omega
    · intro b hmod
      constructor
      · intro hin
        omega
      · intro hbe
        omega
  · have hb : bucketStart t = truncDay t + 43200 := by
      rw [bucketStart, if_neg h]
    rw [hourOfDay, not_lt] at h
    rw [hb]
    unfold hourOfDay truncDay
    refine ⟨fun hh => by omega, fun _ => rfl, by omega, by omega,
      by omega, ?_, ?_⟩
    · right
      omega
    · intro b hmod
      constructor
      · intro hin
        omega
      · intro hbe
        omega

/-- Witness for C9 on a concrete timestamp and a concrete aligned bin. -/
theorem C9_bucket_partition_witness :
    bucketStart 100000 = truncDay 100000
    ∧ bucketStart 100000 % 43200 = 0
    ∧ bucketStart 100000 ≤ 100000
    ∧ (100000 : ℤ) < bucketStart 100000 + 43200
    ∧ ((86400 : ℤ) ≤ 100000 ∧ (100000 : ℤ) < 86400 + 43200 ↔ (86400 : ℤ) = bucketStart 100000) :=
  ⟨(C9_bucket_partition 100000).1 (by decide),
   (C9_bucket_partition 100000).2.2.1,
   (C9_bucket_partition 100000).2.2.2.1,
   (C9_bucket_partition 100000).2.2.2.2.1,
   (C9_bucket_partition 100000).2.2.2.2.2.2 86400 (by decide)⟩

end SolanaQRF

namespace SolanaQRF

theorem snd_mem_of_mem_upperPairs {α : Type} {x y : α} :
    ∀ {l : List α}, (x, y) ∈ upperPairs l → y ∈ l
  | [], h => by simp [upperPairs] at h
  | a :: l, h => by
    rw [upperPairs, List.mem_append] at h
    rcases h with h | h
    · rw [List.mem_map] at h
      obtain ⟨z, hz, hzy⟩ := h
      cases hzy
      exact List.mem_cons_of_mem _ hz
    · exact List.mem_cons_of_mem _ (snd_mem_of_mem_upperPairs h)

theorem snd_mem_tail_of_mem_upperPairs {α : Type} {x y a : α} {l : List α}
    (h : (x, y) ∈ upperPairs (a :: l)) : y ∈ l := by
  rw [upperPairs, List.mem_append] at h
  rcases h with h | h
  · rw [List.mem_map] at h
    obtain ⟨z, hz, hzy⟩ := h
    cases hzy
    exact hz
  · exact snd_mem_of_mem_upperPairs h

theorem mem_upperPairs_of_mem {α : Type} {x y : α} :
    ∀ {l : List α}, x ∈ l → y ∈ l → x ≠ y →
      (x, y) ∈ upperPairs l ∨ (y, x) ∈ upperPairs l
  | [], hx, _, _ => by simp at hx
  | a :: l, hx, hy, hne => by
    rw [List.mem_cons] at hx hy
    rcases hx with hx | hx
    · subst hx
      rcases hy with hy | hy
      · exact absurd hy.symm hne
      · left
        rw [upperPairs, List.mem_append, List.mem_map]
        exact Or.inl ⟨y, hy, rfl⟩
    · rcases hy with hy | hy
      · subst hy
        right
        rw [upperPairs, List.mem_append, List.mem_map]
        exact Or.inl ⟨x, hx, rfl⟩
      · rcases mem_upperPairs_of_mem hx hy hne with h | h
        · left
          rw [upperPairs, List.mem_append]
          exact Or.inr h
        · right
          rw [upperPairs, List.mem_append]
          exact Or.inr h

theorem mem_toDrop_iff {α : Type} {corr : α → α → ℚ} {cols : List α} {y : α} :
    y ∈ toDrop corr cols
      ↔ ∃ x, (x, y) ∈ upperPairs cols ∧ mkRat 49 50 < corr x y := by
  rw [toDrop, List.mem_filterMap]
  constructor
  · rintro ⟨⟨q1, q2⟩, hq, hy⟩
    by_cases hc : mkRat 49 50 < corr q1 q2
    · rw [if_pos hc] at hy
      cases hy
      exact ⟨q1, hq, hc⟩
    · rw [if_neg hc] at hy
      cases hy
  · rintro ⟨x, hx, hc⟩
    exact ⟨(x, y), hx, by rw [if_pos hc]⟩

/-- C10: after the Stage-2 multicollinearity filter, every pair of
distinct retained numeric predictors has absolute correlation at most
0.98; only the later column of an offending pair is marked for dropping,
so the first numeric column is always retained; categorical predictors
are never dropped; and the Stage-2 list is a sublist of the Stage-1 list
in its original order. -/
theorem C10_stage2_filter {α : Type} [DecidableEq α] (corr : α → α → ℚ)
    (numKeep catKeep : List α) (hnd : numKeep.Nodup)
    (hsym : ∀ x y, corr x y = corr y x) :
    (∀ x ∈ numAfter corr numKeep, ∀ y ∈ numAfter corr numKeep, x ≠ y →
        corr x y ≤ mkRat 49 50)
    ∧ (∀ a l, numKeep = a :: l → a ∈ numAfter corr numKeep)
    ∧ (∀ c ∈ catKeep, c ∈ predictorsStage2 corr numKeep catKeep)
    ∧ (predictorsStage2 corr numKeep catKeep).Sublist (numKeep ++ catKeep) := by
  refine ⟨?_, ?_, ?_, ?_⟩
  · intro x hx y hy hne
    rw [numAfter, List.mem_filter] at hx hy
    obtain ⟨hxm, hxd⟩ := hx
    obtain ⟨hym, hyd⟩ := hy
    rw [decide_eq_true_iff] at hxd hyd
    by_contra hgt
    rw [not_le] at hgt
    rcases mem_upperPairs_of_mem hxm hym hne with h | h
    · exact hyd (mem_toDrop_iff.mpr ⟨x, h, hgt⟩)
    · exact hxd (mem_toDrop_iff.mpr ⟨y, h, by rw [hsym y x]; exact hgt⟩)
  · intro a l heq
    subst heq
    rw [numAfter, List.mem_filter]
    refine ⟨List.mem_cons_self a l, ?_⟩
    rw [decide_eq_true_iff]
    intro hdrop
    obtain ⟨x, hpair, _⟩ := mem_toDrop_iff.mp hdrop
    exact (List.nodup_cons.mp hnd).1 (snd_mem_tail_of_mem_upperPairs hpair)
  · intro c hc
    rw [predictorsStage2]
    exact List.mem_append_right _ hc
  · rw [predictorsStage2, numAfter]
    exact (List.filter_sublist _).append (List.Sublist.refl _)

/-- Witness for C10 with two numeric columns, one categorical column and
the zero correlation matrix. -/
theorem C10_stage2_filter_witness :
    (∀ x ∈ numAfter (fun _ _ : ℕ => (0 : ℚ)) [0, 1],
      ∀ y ∈ numAfter (fun _ _ : ℕ => (0 : ℚ)) [0, 1], x ≠ y →
        (fun _ _ : ℕ => (0 : ℚ)) x y ≤ mkRat 49 50)
    ∧ (∀ a l, [0, 1] = a :: l → a ∈ numAfter (fun _ _ : ℕ => (0 : ℚ)) [0, 1])
    ∧ (∀ c ∈ [2], c ∈ predictorsStage2 (fun _ _ : ℕ => (0 : ℚ)) [0, 1] [2])
    ∧ (predictorsStage2 (fun _ _ : ℕ => (0 : ℚ)) [0, 1] [2]).Sublist ([0, 1] ++ [2]) :=
  C10_stage2_filter (fun _ _ => 0) [0, 1] [2] (by decide) (fun _ _ => rfl)

end SolanaQRF
